import Mathlib

/-!
Shallow embedding of the doodle-recognition training core:
the stroke-preprocessing pipeline (`training/preprocess.py`) and the
convolutional classifier contract (`training/model.py`).

Conventions of the embedding:
* Python dictionaries parsed from JSON are modelled as structures whose
  possibly-missing keys are `Option` fields (`dict.get(k, d)` becomes
  `Option.getD`, a bare `d[k]` becomes a `KeyError` on `none`).
* Python numbers are modelled by `ℚ`; 8-bit pixels by `ℕ` values in `[0, 255]`.
* Fallible code returns `Except PyError _`; the NumPy global random state is an
  explicit `ℕ` state threaded through the functions that touch it.
* Calls into external libraries (PIL drawing and geometry, NumPy random
  draws, torch weight loading) are modelled by concrete executable
  functions, each marked `External-library model` in its doc comment.
-/

namespace Doodle

/-- Python runtime errors that the embedded functions can raise. -/
inductive PyError where
  | zeroDivisionError
  | keyError
  | valueError
  | runtimeError
  deriving DecidableEq, Repr

/-- One stroke point: the JSON keys `x` and `y` may be missing or
non-numeric, which is modelled by `none` (accessing it raises). -/
structure Point where
  x? : Option ℚ
  y? : Option ℚ
  deriving DecidableEq, Repr

/-- One stroke: the `points` key may be missing (`stroke.get("points", [])`). -/
structure Stroke where
  points? : Option (List Point)
  deriving DecidableEq, Repr

/-- Canvas metadata: `width`/`height` keys may be missing (default 400). -/
structure Canvas where
  width? : Option ℚ
  height? : Option ℚ
  deriving DecidableEq, Repr

/-- The JSON payload consumed by `strokes_to_image`: `strokes` and `canvas`
keys may both be missing. -/
structure StrokeData where
  strokes? : Option (List Stroke)
  canvas? : Option Canvas
  deriving DecidableEq, Repr

/-- Model of `Image.new("L", (size, size), color=255)`: a white `size`×`size` grid. -/
def blankImage (size : ℕ) : List (List ℕ) :=
  List.replicate size (List.replicate size 255)

def clamp01 (t : ℚ) : ℚ := max 0 (min 1 t)

/-- Squared distance from point `p` to the segment from `a` to `b`. -/
def segDistSq (a b p : ℚ × ℚ) : ℚ :=
  let dx := b.1 - a.1
  let dy := b.2 - a.2
  let len2 := dx * dx + dy * dy
  let t := if len2 = 0 then 0 else clamp01 (((p.1 - a.1) * dx + (p.2 - a.2) * dy) / len2)
  (p.1 - (a.1 + t * dx)) ^ 2 + (p.2 - (a.2 + t * dy)) ^ 2

/-- External-library model (PIL `ImageDraw.line` with `width=w`): pixel
`(x, y)` is painted when its center lies within distance `w/2` of the
segment. -/
def segCovers (a b : ℚ × ℚ) (w : ℕ) (x y : ℕ) : Bool :=
  decide (segDistSq a b ((x : ℚ), (y : ℚ)) * 4 ≤ (w : ℚ) * w)

/-- External-library model (PIL `draw.line([a, b], fill=0, width=w)`):
covered pixels are set to intensity 0, all others keep their value. -/
def drawLine (img : List (List ℕ)) (a b : ℚ × ℚ) (w : ℕ) : List (List ℕ) :=
  (List.range img.length).map fun y =>
    (List.range ((img.getD y []).length)).map fun x =>
      if segCovers a b w x y then 0 else (img.getD y []).getD x 255

/-- The loop `for i in range(len(coords) - 1): draw.line([coords[i], coords[i+1]], ...)`. -/
def drawSegments (img : List (List ℕ)) (coords : List (ℚ × ℚ)) (w : ℕ) : List (List ℕ) :=
  match coords with
  | [] => img
  | [_] => img
  | a :: b :: rest => drawSegments (drawLine img a b w) (b :: rest) w

/-- The per-stroke coordinate computation
`for pt in points: coords.append((pt["x"] * scale + offset_x, pt["y"] * scale + offset_y))`:
points are mapped in order and a missing `x` or `y` raises `KeyError`. -/
def coordsOfPoints (scale offX offY : ℚ) : List Point → Except PyError (List (ℚ × ℚ))
  | [] => Except.ok []
  | pt :: rest =>
    match pt.x? with
    | none => Except.error PyError.keyError
    | some x =>
      match pt.y? with
      | none => Except.error PyError.keyError
      | some y =>
        match coordsOfPoints scale offX offY rest with
        | Except.error e => Except.error e
        | Except.ok cs => Except.ok ((x * scale + offX, y * scale + offY) :: cs)

/-- Body of the `for stroke in strokes:` loop of `strokes_to_image`:
strokes with fewer than 2 points are skipped (`continue`), otherwise all
coordinates are computed and the connecting segments drawn. -/
def strokeStep (scale : ℚ) (padding lineWidth : ℕ) (img : List (List ℕ))
    (s : Stroke) : Except PyError (List (List ℕ)) :=
  let pts := s.points?.getD []
  if pts.length < 2 then Except.ok img
  else do
    let coords ← coordsOfPoints scale (padding : ℚ) (padding : ℚ) pts
    Except.ok (drawSegments img coords lineWidth)

/-- The canvas width actually used: `canvas.get("width", 400)` after
the canvas default of `stroke_data.get`. -/
def canvasWidth (d : StrokeData) : ℚ :=
  (d.canvas?.getD ⟨some 400, some 400⟩).width?.getD 400

/-- The canvas height actually used. -/
def canvasHeight (d : StrokeData) : ℚ :=
  (d.canvas?.getD ⟨some 400, some 400⟩).height?.getD 400

/-- Embedding of `strokes_to_image(stroke_data, size, line_width, padding)` from
`training/preprocess.py`.  A white `size`×`size` image is created, the scale
`(size - 2*padding) / max(canvas_width, canvas_height)` is computed
(`ZeroDivisionError` when the maximum is 0, before any stroke is touched),
then every stroke with at least two points is drawn.  The function performs
no input validation of its own. -/
def strokes_to_image (d : StrokeData) (size lineWidth padding : ℕ) :
    Except PyError (List (List ℕ)) :=
  let strokes := d.strokes?.getD []
  if max (canvasWidth d) (canvasHeight d) = 0 then
    Except.error PyError.zeroDivisionError
  else
    let scale : ℚ := ((size : ℚ) - 2 * (padding : ℚ)) / max (canvasWidth d) (canvasHeight d)
    strokes.foldlM (strokeStep scale padding lineWidth) (blankImage size)

/-- Embedding of `image_to_tensor(img)`: divide by 255, invert, add a leading channel
dimension. -/
def image_to_tensor (img : List (List ℕ)) : List (List (List ℚ)) :=
  let scaled := img.map fun row => row.map fun p : ℕ => (p : ℚ) / 255
  let inverted := scaled.map fun row => row.map fun q : ℚ => 1 - q
  [inverted]

/-! ### Augmentation (`augment_image` / `batch_preprocess`)

The NumPy global `RandomState` is modelled as an explicit natural-number state
with a deterministic transition (`lcgNext`); `np.random.seed(s)` resets that
state to a value computed from `s` alone.  The values drawn are a model of
the library generator — the embedded claims depend only on the seeding and
state-threading structure, not on the exact stream. -/

/-- External-library model (`np.random.seed(s)`): the generator state after
seeding is a function of the seed alone. -/
def npSeed (s : ℕ) : ℕ := (s + 99991) % 2147483647

/-- External-library model: one step of the global generator. -/
def lcgNext (st : ℕ) : ℕ := (st * 1103515245 + 12345) % 2147483648

/-- Fraction in `[0, 1)` extracted from the current generator state. -/
def unitFrac (st : ℕ) : ℚ := ((st % 1024 : ℕ) : ℚ) / 1024

/-- External-library model (`np.random.uniform(lo, hi)`): one draw plus the
advanced state. -/
def npUniform (lo hi : ℚ) (st : ℕ) : ℚ × ℕ :=
  (lo + (hi - lo) * unitFrac st, lcgNext st)

/-- External-library model (`np.random.normal(0, 2)` followed by
`astype(np.int32)`): a small signed integer drawn from the state. -/
def npNormalInt (st : ℕ) : ℤ × ℕ := (((st % 9 : ℕ) : ℤ) - 4, lcgNext st)

/-- Pixel read with the PIL white background as the out-of-range default. -/
def pixelGet (img : List (List ℕ)) (r c : ℕ) : ℕ := (img.getD r []).getD c 255

def piApprox : ℚ := 355 / 113

def cosApprox (x : ℚ) : ℚ := 1 - x ^ 2 / 2 + x ^ 4 / 24 - x ^ 6 / 720

def sinApprox (x : ℚ) : ℚ := x - x ^ 3 / 6 + x ^ 5 / 120

/-- External-library model (PIL `img.rotate(angle, fillcolor=255)`): rotate
about the image center, sampling the nearest source pixel, with pixels
falling outside the source filled white; trigonometry is evaluated by a
fixed rational approximation. -/
def pilRotate (img : List (List ℕ)) (angleDeg : ℚ) : List (List ℕ) :=
  let n := img.length
  let c : ℚ := (n : ℚ) / 2
  let rad := angleDeg * piApprox / 180
  let co := cosApprox rad
  let si := sinApprox rad
  (List.range n).map fun y : ℕ => (List.range n).map fun x : ℕ =>
    let sx := co * ((x : ℚ) - c) + si * ((y : ℚ) - c) + c
    let sy := -si * ((x : ℚ) - c) + co * ((y : ℚ) - c) + c
    let ix := ⌊sx + 1/2⌋
    let iy := ⌊sy + 1/2⌋
    if 0 ≤ ix ∧ ix < (n : ℤ) ∧ 0 ≤ iy ∧ iy < (n : ℤ) then
      pixelGet img iy.toNat ix.toNat
    else 255

/-- External-library model (PIL `img.resize((m, m), BILINEAR)`): bilinear
interpolation of the four neighbouring source pixels, rounded back to an
8-bit value. -/
def pilResize (img : List (List ℕ)) (m : ℕ) : List (List ℕ) :=
  let n := img.length
  (List.range m).map fun y : ℕ => (List.range m).map fun x : ℕ =>
    let sx := ((x : ℚ) + 1/2) * (n : ℚ) / (m : ℚ) - 1/2
    let sy := ((y : ℚ) + 1/2) * (n : ℚ) / (m : ℚ) - 1/2
    let x0 : ℤ := ⌊sx⌋
    let y0 : ℤ := ⌊sy⌋
    let fx := sx - (x0 : ℚ)
    let fy := sy - (y0 : ℚ)
    let cl : ℤ → ℕ := fun i => min (n - 1) (max 0 i).toNat
    let p00 : ℚ := pixelGet img (cl y0) (cl x0)
    let p01 : ℚ := pixelGet img (cl y0) (cl (x0 + 1))
    let p10 : ℚ := pixelGet img (cl (y0 + 1)) (cl x0)
    let p11 : ℚ := pixelGet img (cl (y0 + 1)) (cl (x0 + 1))
    let v := (1 - fy) * ((1 - fx) * p00 + fx * p01) + fy * ((1 - fx) * p10 + fx * p11)
    (max 0 ⌊v + 1/2⌋).toNat

/-- External-library model (PIL `img.crop((left, top, right, bottom))`). -/
def pilCrop (img : List (List ℕ)) (left top right bottom : ℕ) : List (List ℕ) :=
  ((img.drop top).take (bottom - top)).map fun row => (row.drop left).take (right - left)

/-- External-library model of pasting `img` at offset `(off, off)` onto a
fresh white `orig`×`orig` canvas. -/
def pilPasteCenter (img : List (List ℕ)) (orig m off : ℕ) : List (List ℕ) :=
  (List.range orig).map fun y => (List.range orig).map fun x =>
    if off ≤ y ∧ y < off + m ∧ off ≤ x ∧ x < off + m then
      pixelGet img (y - off) (x - off)
    else 255

/-- Embeds `result = np.clip(result.astype(np.int32) + noise, 0, 255).astype(np.uint8)`
for one row, drawing one noise value per pixel from the generator state. -/
def noisePixels : List ℕ → ℕ → List ℕ × ℕ
  | [], st => ([], st)
  | p :: ps, st =>
    let rest := noisePixels ps (npNormalInt st).2
    ((min 255 (max 0 ((p : ℤ) + (npNormalInt st).1))).toNat :: rest.1, rest.2)

/-- Per-pixel Gaussian noise over the whole image (row-major draw order). -/
def noiseImage : List (List ℕ) → ℕ → List (List ℕ) × ℕ
  | [], st => ([], st)
  | row :: rows, st =>
    let r1 := noisePixels row st
    let r2 := noiseImage rows r1.2
    (r1.1 :: r2.1, r2.2)

/-- The geometric stage of `augment_image`, which consumes no random state
beyond the two values already drawn: rotate by `angle` (white fill), resize
to `int(width * scale)` with bilinear interpolation, then center-crop or
white-pad back to the original size. -/
def augGeom (img : List (List ℕ)) (angle sc : ℚ) : List (List ℕ) :=
  let rotated := pilRotate img angle
  let newSize := (⌊(rotated.length : ℚ) * sc⌋).toNat
  let resized := pilResize rotated newSize
  let origSize := img.length
  if newSize > origSize then
    let left := (newSize - origSize) / 2
    pilCrop resized left left (left + origSize) (left + origSize)
  else if newSize < origSize then
    let off := (origSize - newSize) / 2
    pilPasteCenter resized origSize newSize off
  else resized

/-- Embedding of `augment_image(img, seed)` from `training/preprocess.py`: when a seed is
given, `np.random.seed(seed)` resets the global state first; then a rotation
angle and a scale factor are drawn in that order, the geometric stage
(`augGeom`: rotate with white fill, bilinear resize to `int(width*scale)`,
recenter to the original size) is applied, and per-pixel integer noise is
added with clipping to `[0, 255]`.  Returns the image together with the
final generator state. -/
def augment_image (img : List (List ℕ)) (seed : Option ℕ) (st0 : ℕ) :
    List (List ℕ) × ℕ :=
  let st := match seed with
    | some s => npSeed s
    | none => st0
  let a := npUniform (-15) 15 st
  let sc := npUniform (9/10) (11/10) a.2
  noiseImage (augGeom img a.1 sc.1) sc.2

/-- One iteration of the `for data in stroke_data_list:` loop of
`batch_preprocess`: rasterize, optionally augment (with *no* seed argument,
so the shared generator state is used), then normalize. -/
def batchStep (size : ℕ) (augment : Bool) :
    Except PyError (List (List (List (List ℚ)))) × ℕ → StrokeData →
    Except PyError (List (List (List (List ℚ)))) × ℕ
  | (Except.error e, st), _ => (Except.error e, st)
  | (Except.ok acc, st), d =>
    match strokes_to_image d size 2 4 with
    | Except.error e => (Except.error e, st)
    | Except.ok img =>
      let r := if augment then augment_image img none st else (img, st)
      (Except.ok (acc ++ [image_to_tensor r.1]), r.2)

/-- Embedding of `batch_preprocess(stroke_data_list, size, augment)` from
`training/preprocess.py`: preprocess every drawing in order and stack the
tensors; `np.stack` of an empty sequence raises `ValueError`. -/
def batch_preprocess (l : List StrokeData) (size : ℕ) (augment : Bool) (st : ℕ) :
    Except PyError (List (List (List (List ℚ)))) × ℕ :=
  match l.foldl (batchStep size augment) (Except.ok [], st) with
  | (Except.error e, st2) => (Except.error e, st2)
  | (Except.ok [], st2) => (Except.error PyError.valueError, st2)
  | (Except.ok imgs, st2) => (Except.ok imgs, st2)

end Doodle

namespace DoodleNet

/-!
Embedding of `training/model.py`.  A feature map is a channel list of
`H`×`W` rational grids.  Float arithmetic is modelled by `ℚ`; the two
irrational library primitives are replaced by positive rational
approximations (`sqrtApprox` for the batch-norm denominator, `expApprox`
for softmax) — every property proved below depends only on positivity,
never on the approximated values.
-/

/-- Parameters of one `nn.BatchNorm2d` in eval mode. -/
structure BNParams where
  gamma : List ℚ
  beta : List ℚ
  mean : List ℚ
  variance : List ℚ
  deriving DecidableEq, Repr

/-- Parameters of one `DepthwiseSeparableConv` block: a per-channel 3×3
depthwise kernel, a pointwise `[out][in][1][1]` kernel, and two batch
norms. -/
structure DSConvParams where
  depthwise : List (List (List ℚ))
  pointwise : List (List (List (List ℚ)))
  bn1 : BNParams
  bn2 : BNParams
  deriving DecidableEq, Repr

/-- All parameters of `DoodleNet`: the entry convolution and its batch norm,
the six depthwise-separable blocks of
`DepthwiseSeparableConv(32,64,1), (64,128,2), (128,128,1), (128,256,2),
(256,256,1), (256,512,2)`, and the final linear classifier. -/
structure DoodleNetParams where
  conv1w : List (List (List (List ℚ)))
  bn0 : BNParams
  b1 : DSConvParams
  b2 : DSConvParams
  b3 : DSConvParams
  b4 : DSConvParams
  b5 : DSConvParams
  b6 : DSConvParams
  clsW : List (List ℚ)
  clsB : List ℚ
  deriving DecidableEq, Repr

/-- Zero-padded pixel read (`padding=1` zero padding of `nn.Conv2d`). -/
def pixelQ (m : List (List ℚ)) (r c : ℤ) : ℚ :=
  if 0 ≤ r ∧ 0 ≤ c then (m.getD r.toNat []).getD c.toNat 0 else 0

/-- Correlation of one input channel with one kernel at output position
`(i, j)` for the given stride and zero padding. -/
def convAt (xc wc : List (List ℚ)) (stride pad i j : ℕ) : ℚ :=
  ((List.range wc.length).map fun u =>
    ((List.range ((wc.getD u []).length)).map fun v =>
      (wc.getD u []).getD v 0 *
        pixelQ xc ((i * stride + u : ℕ) - (pad : ℤ)) ((j * stride + v : ℕ) - (pad : ℤ))).sum).sum

/-- Output spatial extent of a convolution:
`floor((n + 2*pad - k) / stride) + 1`. -/
def outDim (n k pad stride : ℕ) : ℕ := (n + 2 * pad - k) / stride + 1

/-- Embeds `nn.Conv2d(in, out, kernel_size=k, stride, padding, bias=False)` applied
to one example: weight layout `[out][in][k][k]`. -/
def conv2d (w : List (List (List (List ℚ)))) (stride pad : ℕ)
    (x : List (List (List ℚ))) : List (List (List ℚ)) :=
  let H := (x.headD []).length
  let W := ((x.headD []).headD []).length
  let k := ((w.headD []).headD []).length
  w.map fun wo =>
    (List.range (outDim H k pad stride)).map fun i =>
      (List.range (outDim W k pad stride)).map fun j =>
        ((x.zip wo).map fun p => convAt p.1 p.2 stride pad i j).sum

/-- Embeds `nn.Conv2d(c, c, kernel_size=3, stride, padding=1, groups=c, bias=False)`:
each output channel sees only its own input channel; weight layout
`[c][3][3]`. -/
def depthwiseConv (w : List (List (List ℚ))) (stride : ℕ)
    (x : List (List (List ℚ))) : List (List (List ℚ)) :=
  let H := (x.headD []).length
  let W := ((x.headD []).headD []).length
  (x.zip w).map fun p =>
    (List.range (outDim H 3 1 stride)).map fun i =>
      (List.range (outDim W 3 1 stride)).map fun j =>
        convAt p.1 p.2 stride 1 i j

/-- Six Newton iterations for the square root, started above the fixpoint;
External-library model of the float `sqrt` in batch norm. -/
def sqrtApprox (q : ℚ) : ℚ :=
  let step := fun x : ℚ => (x + q / x) / 2
  step (step (step (step (step (step (max q 1))))))

/-- Embeds `nn.BatchNorm2d` in eval mode:
`(x - running_mean) / sqrt(running_var + eps) * gamma + beta` per channel. -/
def bnorm (p : BNParams) (x : List (List (List ℚ))) : List (List (List ℚ)) :=
  x.enum.map fun ci =>
    let g := p.gamma.getD ci.1 1
    let b := p.beta.getD ci.1 0
    let m := p.mean.getD ci.1 0
    let v := p.variance.getD ci.1 1
    ci.2.map fun row => row.map fun t => (t - m) / sqrtApprox (v + 1 / 100000) * g + b

/-- Embeds `F.relu` on a feature map. -/
def reluT (x : List (List (List ℚ))) : List (List (List ℚ)) :=
  x.map fun xc => xc.map fun row => row.map fun t => max t 0

/-- Embeds `DepthwiseSeparableConv.forward`: depthwise → bn1 → relu → pointwise →
bn2 → relu. -/
def dsconvForward (p : DSConvParams) (stride : ℕ)
    (x : List (List (List ℚ))) : List (List (List ℚ)) :=
  reluT (bnorm p.bn2 (conv2d p.pointwise 1 0 (reluT (bnorm p.bn1 (depthwiseConv p.depthwise stride x)))))

/-- Embeds `nn.AdaptiveAvgPool2d(1)` followed by `torch.flatten(x, 1)`: the mean of
every channel. -/
def gapFlatten (x : List (List (List ℚ))) : List ℚ :=
  x.map fun xc => (xc.map List.sum).sum / ((xc.length * (xc.headD []).length : ℕ) : ℚ)

/-- Embeds `nn.Linear(512, num_classes)`: one affine form per weight row. -/
def linearLayer (w : List (List ℚ)) (b : List ℚ) (v : List ℚ) : List ℚ :=
  (w.zip b).map fun p => ((p.1.zip v).map fun q => q.1 * q.2).sum + p.2

/-- Embeds `DoodleNet.forward` on a single example: conv1 (stride 2, padding 1) with
batch norm and relu, the six depthwise-separable blocks with strides
`1, 2, 1, 2, 1, 2`, global average pooling, flatten, then the linear
classifier head (dropout is the identity at inference time).  The result is
the raw logits — no activation is applied. -/
def forwardSingle (p : DoodleNetParams) (x : List (List (List ℚ))) : List ℚ :=
  let h0 := reluT (bnorm p.bn0 (conv2d p.conv1w 2 1 x))
  let h1 := dsconvForward p.b1 1 h0
  let h2 := dsconvForward p.b2 2 h1
  let h3 := dsconvForward p.b3 1 h2
  let h4 := dsconvForward p.b4 2 h3
  let h5 := dsconvForward p.b5 1 h4
  let h6 := dsconvForward p.b6 2 h5
  linearLayer p.clsW p.clsB (gapFlatten h6)

/-- Embeds `DoodleNet.forward` on a batch. -/
def forward (p : DoodleNetParams) (batch : List (List (List (List ℚ)))) :
    List (List ℚ) :=
  batch.map (forwardSingle p)

/-- Degree-7 Taylor polynomial of the exponential, used on `[0, ∞)`. -/
def expPos (z : ℚ) : ℚ :=
  1 + z + z ^ 2 / 2 + z ^ 3 / 6 + z ^ 4 / 24 + z ^ 5 / 120 + z ^ 6 / 720 + z ^ 7 / 5040

/-- External-library model of the float exponential inside `F.softmax`: a
strictly positive rational approximation (`exp(-z) = 1/exp(z)` below 0).
The properties proved about `predict` depend only on its positivity. -/
def expApprox (z : ℚ) : ℚ := if 0 ≤ z then expPos z else 1 / expPos (-z)

/-- Embeds `F.softmax(logits, dim=1)` for one example. -/
def softmaxQ (l : List ℚ) : List ℚ :=
  let s := (l.map expApprox).sum
  l.map fun z => expApprox z / s

/-- Maximum of a list (`probs.max(1)` values). -/
def maxOfList (l : List ℚ) : ℚ := l.foldl max (l.headD 0)

/-- Index of the first maximal element (`probs.max(1)` indices). -/
def idxMax : List ℚ → ℕ
  | [] => 0
  | [_] => 0
  | a :: rest =>
    let j := idxMax rest
    if a < rest.getD j 0 then j + 1 else 0

/-- Embeds `DoodleNet.predict`: softmax over the class dimension inside
`torch.no_grad()`, then per-example argmax and its probability. -/
def predict (p : DoodleNetParams) (batch : List (List (List (List ℚ)))) :
    List ℕ × List ℚ :=
  let probs := (forward p batch).map softmaxQ
  (probs.map idxMax, probs.map maxOfList)

/-!
`create_model(num_classes, pretrained_path)`: a weight set is modelled at
the level of `state_dict` structure — a list of `(key, shape)` entries.
`doodleNetStateShapes` is the declared parameter set of `DoodleNet`
transcribed from the architecture (including the batch-norm buffers that
`state_dict()` exposes).
-/

/-- The `state_dict` entries contributed by one `nn.BatchNorm2d(c)`. -/
def bnKeys (pre : String) (c : ℕ) : List (String × List ℕ) :=
  [(pre ++ ".weight", [c]), (pre ++ ".bias", [c]),
   (pre ++ ".running_mean", [c]), (pre ++ ".running_var", [c]),
   (pre ++ ".num_batches_tracked", [])]

/-- The `state_dict` entries of one `DepthwiseSeparableConv(inC, outC)`. -/
def dsKeys (pre : String) (inC outC : ℕ) : List (String × List ℕ) :=
  [(pre ++ ".depthwise.weight", [inC, 1, 3, 3]),
   (pre ++ ".pointwise.weight", [outC, inC, 1, 1])] ++
  bnKeys (pre ++ ".bn1") inC ++ bnKeys (pre ++ ".bn2") outC

/-- The declared parameter set of `DoodleNet(num_classes)`: every
`state_dict` key with its tensor shape. -/
def doodleNetStateShapes (numClasses : ℕ) : List (String × List ℕ) :=
  [("conv1.0.weight", [32, 1, 3, 3])] ++ bnKeys "conv1.1" 32 ++
  dsKeys "features.0" 32 64 ++ dsKeys "features.1" 64 128 ++
  dsKeys "features.2" 128 128 ++ dsKeys "features.3" 128 256 ++
  dsKeys "features.4" 256 256 ++ dsKeys "features.5" 256 512 ++
  [("classifier.1.weight", [numClasses, 512]), ("classifier.1.bias", [numClasses])]

/-- Structural match of an external weight set against the declared
parameter set: no missing keys, no unexpected keys, no shape mismatch. -/
def shapesMatch (declared sd : List (String × List ℕ)) : Bool :=
  declared.all (fun kv => sd.contains kv) && sd.all (fun kv => declared.contains kv)

/-- Embedding of `create_model(num_classes, pretrained_path)` from `training/model.py`.
External-library model (`torch.nn.Module.load_state_dict`, strict mode):
a structurally matching weight set fully overwrites the parameters of the fresh model; any mismatch raises `RuntimeError`, so the caller never
receives a model — the embedding returns the adopted weight set on success
and no model state at all on failure. -/
def create_model (numClasses : ℕ) (pretrained : Option (List (String × List ℕ))) :
    Except Doodle.PyError (List (String × List ℕ)) :=
  let declared := doodleNetStateShapes numClasses
  match pretrained with
  | none => Except.ok declared
  | some sd =>
    if shapesMatch declared sd then Except.ok sd
    else Except.error Doodle.PyError.runtimeError

end DoodleNet

instance {ε α : Type _} [DecidableEq ε] [DecidableEq α] : DecidableEq (Except ε α) :=
  fun x y =>
    match x, y with
    | Except.error a, Except.error b =>
      if h : a = b then Decidable.isTrue (by rw [h])
      else Decidable.isFalse (fun hh => h (by injection hh))
    | Except.ok a, Except.ok b =>
      if h : a = b then Decidable.isTrue (by rw [h])
      else Decidable.isFalse (fun hh => h (by injection hh))
    | Except.error _, Except.ok _ => Decidable.isFalse (fun hh => by injection hh)
    | Except.ok _, Except.error _ => Decidable.isFalse (fun hh => by injection hh)

namespace Doodle

/-- A raster image is well-formed for `size`: a `size`×`size` grid of 8-bit
values. -/
def ImgOK (size : ℕ) (img : List (List ℕ)) : Prop :=
  img.length = size ∧ ∀ row ∈ img, row.length = size ∧ ∀ v ∈ row, v ≤ 255

/-- A model tensor is well-formed for `size`: one leading channel dimension
over a `size`×`size` grid of values in `[0, 1]`. -/
def TensorOK (size : ℕ) (t : List (List (List ℚ))) : Prop :=
  t.length = 1 ∧ ∀ ch ∈ t, ch.length = size ∧
    ∀ row ∈ ch, row.length = size ∧ ∀ q ∈ row, 0 ≤ q ∧ q ≤ 1

/-- Every point of every stroke carries numeric `x` and `y` entries. -/
def WFPoints (d : StrokeData) : Prop :=
  ∀ s ∈ d.strokes?.getD [], ∀ pt ∈ s.points?.getD [], pt.x?.isSome ∧ pt.y?.isSome

/-- The drawing with its strokes of fewer than two points removed. -/
def dropShortStrokes (d : StrokeData) : StrokeData :=
  ⟨some ((d.strokes?.getD []).filter fun s => 2 ≤ (s.points?.getD []).length), d.canvas?⟩

end Doodle

namespace DoodleNet

/-- Shape of a feature map: `c` channels of `h`×`w` values. -/
def TShape (c h w : ℕ) (x : List (List (List ℚ))) : Prop :=
  x.length = c ∧ ∀ xc ∈ x, xc.length = h ∧ ∀ row ∈ xc, row.length = w

/-- Well-formed `[out][in][k][k]` convolution weight. -/
def WFConvW (outC inC k : ℕ) (w : List (List (List (List ℚ)))) : Prop :=
  w.length = outC ∧ ∀ wo ∈ w, wo.length = inC ∧
    ∀ wc ∈ wo, wc.length = k ∧ ∀ r ∈ wc, r.length = k

/-- Well-formed batch-norm parameters for `c` channels. -/
def WFBN (c : ℕ) (p : BNParams) : Prop :=
  p.gamma.length = c ∧ p.beta.length = c ∧ p.mean.length = c ∧ p.variance.length = c

/-- Well-formed `DepthwiseSeparableConv(inC, outC)` parameters. -/
def WFDS (inC outC : ℕ) (p : DSConvParams) : Prop :=
  (p.depthwise.length = inC ∧ ∀ wc ∈ p.depthwise, wc.length = 3 ∧ ∀ r ∈ wc, r.length = 3) ∧
  WFConvW outC inC 1 p.pointwise ∧ WFBN inC p.bn1 ∧ WFBN outC p.bn2

/-- Well-formed `DoodleNet(numClasses)` parameters: channel widths
`32 → 64 → 128 → 128 → 256 → 256 → 512` and a `numClasses`×512 head. -/
def WFParams (numClasses : ℕ) (p : DoodleNetParams) : Prop :=
  WFConvW 32 1 3 p.conv1w ∧ WFBN 32 p.bn0 ∧
  WFDS 32 64 p.b1 ∧ WFDS 64 128 p.b2 ∧ WFDS 128 128 p.b3 ∧
  WFDS 128 256 p.b4 ∧ WFDS 256 256 p.b5 ∧ WFDS 256 512 p.b6 ∧
  p.clsW.length = numClasses ∧ (∀ r ∈ p.clsW, r.length = 512) ∧
  p.clsB.length = numClasses

/-- All-zero kernel of size `k`×`k`. -/
def zeroKernel (k : ℕ) : List (List ℚ) := List.replicate k (List.replicate k 0)

/-- All-zero `[outC][inC][k][k]` convolution weight. -/
def zeroConvW (outC inC k : ℕ) : List (List (List (List ℚ))) :=
  List.replicate outC (List.replicate inC (zeroKernel k))

/-- Identity-shaped batch-norm parameters for `c` channels. -/
def zeroBN (c : ℕ) : BNParams :=
  ⟨List.replicate c 1, List.replicate c 0, List.replicate c 0, List.replicate c 1⟩

/-- Zero-valued `DepthwiseSeparableConv(inC, outC)` parameters. -/
def zeroDS (inC outC : ℕ) : DSConvParams :=
  ⟨List.replicate inC (zeroKernel 3), zeroConvW outC inC 1, zeroBN inC, zeroBN outC⟩

/-- A concrete, correctly shaped parameter set for `DoodleNet(5)`. -/
def zeroDoodleParams : DoodleNetParams :=
  ⟨zeroConvW 32 1 3, zeroBN 32,
   zeroDS 32 64, zeroDS 64 128, zeroDS 128 128,
   zeroDS 128 256, zeroDS 256 256, zeroDS 256 512,
   List.replicate 5 (List.replicate 512 0), List.replicate 5 0⟩

/-- A concrete all-zero 1×64×64 input tensor. -/
def zeroInput64 : List (List (List ℚ)) :=
  List.replicate 1 (List.replicate 64 (List.replicate 64 0))

end DoodleNet

/-! ## Lemmas about the rasterizer -/

namespace Doodle

theorem blankImage_ok (size : ℕ) : ImgOK size (blankImage size) := by
  refine ⟨List.length_replicate size _, ?_⟩
  intro row hrow
  rw [List.eq_of_mem_replicate hrow]
  exact ⟨List.length_replicate size _, fun v hv => by rw [List.eq_of_mem_replicate hv]⟩

theorem drawLine_ok {n : ℕ} {img : List (List ℕ)} (h : ImgOK n img)
    (a b : ℚ × ℚ) (w : ℕ) : ImgOK n (drawLine img a b w) := by
  obtain ⟨hlen, hrow⟩ := h
  constructor
  · simp [drawLine, hlen]
  · intro row hr
    simp only [drawLine, List.mem_map, List.mem_range] at hr
    obtain ⟨y, hy, rfl⟩ := hr
    have hmem : img.getD y [] ∈ img := by
      rw [List.getD_eq_getElem img [] hy]
      exact List.getElem_mem hy
    obtain ⟨hrl, hrv⟩ := hrow _ hmem
    constructor
    · simp only [List.length_map, List.length_range]
      exact hrl
    · intro v hv
      simp only [List.mem_map, List.mem_range] at hv
      obtain ⟨x, hx, rfl⟩ := hv
      by_cases hc : segCovers a b w x y
      · simp [hc]
      · simp only [hc, if_false]
        rw [List.getD_eq_getElem _ 255 hx]
        exact hrv _ (List.getElem_mem hx)

theorem drawSegments_ok {n : ℕ} (w : ℕ) :
    ∀ (coords : List (ℚ × ℚ)) (img : List (List ℕ)), ImgOK n img →
      ImgOK n (drawSegments img coords w) := by
  intro coords
  induction coords with
  | nil => intro img h; simpa [drawSegments] using h
  | cons a rest ih =>
    intro img h
    cases rest with
    | nil => simpa [drawSegments] using h
    | cons b rest2 =>
      rw [drawSegments]
      exact ih (drawLine img a b w) (drawLine_ok h a b w)

theorem coordsOfPoints_eq (scale offX offY : ℚ) :
    ∀ (pts : List Point), (∀ pt ∈ pts, pt.x?.isSome ∧ pt.y?.isSome) →
      coordsOfPoints scale offX offY pts =
        Except.ok (pts.map fun pt =>
          (pt.x?.getD 0 * scale + offX, pt.y?.getD 0 * scale + offY)) := by
  intro pts
  induction pts with
  | nil => intro _; rfl
  | cons pt t ih =>
    intro h
    obtain ⟨hx, hy⟩ := h pt (List.mem_cons_self pt t)
    obtain ⟨x, hxv⟩ := Option.isSome_iff_exists.mp hx
    obtain ⟨y, hyv⟩ := Option.isSome_iff_exists.mp hy
    have ht := ih fun q hq => h q (List.mem_cons_of_mem pt hq)
    rw [coordsOfPoints, hxv, hyv, ht]
    simp [hxv, hyv]

theorem strokeStep_imgOK {n : ℕ} {scale : ℚ} {padding lineWidth : ℕ}
    {img img2 : List (List ℕ)} {s : Stroke} (h : ImgOK n img)
    (heq : strokeStep scale padding lineWidth img s = Except.ok img2) :
    ImgOK n img2 := by
  unfold strokeStep at heq
  by_cases hlen : (s.points?.getD []).length < 2
  · rw [if_pos hlen] at heq
    injection heq with h2
    rwa [← h2]
  · rw [if_neg hlen] at heq
    cases hc : coordsOfPoints scale (padding : ℚ) (padding : ℚ) (s.points?.getD []) with
    | error e => rw [hc] at heq; exact absurd heq (by simp [Bind.bind, Except.bind])
    | ok coords =>
      rw [hc] at heq
      simp only [Bind.bind, Except.bind] at heq
      injection heq with h2
      rw [← h2]
      exact drawSegments_ok lineWidth coords img h

theorem strokeStep_isOk {scale : ℚ} {padding lineWidth : ℕ}
    (img : List (List ℕ)) (s : Stroke)
    (hwf : ∀ pt ∈ s.points?.getD [], pt.x?.isSome ∧ pt.y?.isSome) :
    ∃ img2, strokeStep scale padding lineWidth img s = Except.ok img2 := by
  unfold strokeStep
  by_cases hlen : (s.points?.getD []).length < 2
  · exact ⟨img, by rw [if_pos hlen]⟩
  · rw [if_neg hlen, coordsOfPoints_eq _ _ _ _ hwf]
    exact ⟨_, rfl⟩

theorem foldlM_except_inv {α β ε : Type _} (P : β → Prop) (f : β → α → Except ε β) :
    ∀ (l : List α) (init r : β), P init →
      (∀ b a r2, P b → f b a = Except.ok r2 → P r2) →
      l.foldlM f init = Except.ok r → P r := by
  intro l
  induction l with
  | nil =>
    intro init r hinit _ heq
    simp only [List.foldlM_nil] at heq
    injection heq with h2
    rwa [← h2]
  | cons a t ih =>
    intro init r hinit hstep heq
    rw [List.foldlM_cons] at heq
    cases hfa : f init a with
    | error e =>
      rw [hfa] at heq
      exact absurd heq (by simp [Bind.bind, Except.bind])
    | ok b =>
      rw [hfa] at heq
      simp only [Bind.bind, Except.bind] at heq
      exact ih b r (hstep init a b hinit hfa) hstep heq

theorem foldlM_except_ok {α β ε : Type _} (f : β → α → Except ε β) :
    ∀ (l : List α) (init : β), (∀ b a, a ∈ l → ∃ r, f b a = Except.ok r) →
      ∃ r, l.foldlM f init = Except.ok r := by
  intro l
  induction l with
  | nil => intro init _; exact ⟨init, rfl⟩
  | cons a t ih =>
    intro init hstep
    obtain ⟨b, hb⟩ := hstep init a (List.mem_cons_self a t)
    obtain ⟨r, hr⟩ := ih b fun b2 a2 ha2 => hstep b2 a2 (List.mem_cons_of_mem a ha2)
    refine ⟨r, ?_⟩
    rw [List.foldlM_cons, hb]
    simpa [Bind.bind, Except.bind] using hr

theorem strokes_to_image_isOk {d : StrokeData} {size lineWidth padding : ℕ}
    (hmax : max (canvasWidth d) (canvasHeight d) ≠ 0) (hwf : WFPoints d) :
    ∃ img, strokes_to_image d size lineWidth padding = Except.ok img := by
  unfold strokes_to_image
  rw [if_neg hmax]
  exact foldlM_except_ok _ _ _ fun b s hs => strokeStep_isOk b s (hwf s hs)

theorem strokes_to_image_imgOK {d : StrokeData} {size lineWidth padding : ℕ}
    {img : List (List ℕ)}
    (h : strokes_to_image d size lineWidth padding = Except.ok img) :
    ImgOK size img := by
  unfold strokes_to_image at h
  by_cases hmax : max (canvasWidth d) (canvasHeight d) = 0
  · rw [if_pos hmax] at h; exact absurd h (by simp)
  · rw [if_neg hmax] at h
    exact foldlM_except_inv (ImgOK size) _ _ _ img (blankImage_ok size)
      (fun b s r hb hr => strokeStep_imgOK hb hr) h

theorem image_to_tensor_eq (img : List (List ℕ)) :
    image_to_tensor img = [img.map fun row => row.map fun p : ℕ => 1 - (p : ℚ) / 255] := by
  simp [image_to_tensor, List.map_map, Function.comp]

theorem image_to_tensor_ok {size : ℕ} {img : List (List ℕ)} (h : ImgOK size img) :
    TensorOK size (image_to_tensor img) := by
  obtain ⟨hlen, hrow⟩ := h
  rw [image_to_tensor_eq]
  refine ⟨rfl, ?_⟩
  intro ch hch
  rw [List.mem_singleton] at hch
  subst hch
  refine ⟨by simp [hlen], ?_⟩
  intro row hr
  simp only [List.mem_map] at hr
  obtain ⟨row0, hr0, rfl⟩ := hr
  obtain ⟨hrl, hrv⟩ := hrow row0 hr0
  refine ⟨by rw [List.length_map]; exact hrl, ?_⟩
  intro q hq
  simp only [List.mem_map] at hq
  obtain ⟨p, hp, rfl⟩ := hq
  have h1 : (p : ℚ) ≤ 255 := by exact_mod_cast hrv p hp
  have h2 : (p : ℚ) / 255 ≤ 1 := (div_le_one (by norm_num)).mpr h1
  have h3 : (0 : ℚ) ≤ (p : ℚ) / 255 := by positivity
  constructor <;> linarith

theorem getD_le_bound {l : List ℕ} {i d b : ℕ} (hd : d ≤ b) (h : ∀ v ∈ l, v ≤ b) :
    l.getD i d ≤ b := by
  by_cases hi : i < l.length
  · rw [List.getD_eq_getElem l d hi]
    exact h _ (List.getElem_mem hi)
  · rw [List.getD_eq_getElem?_getD, List.getElem?_eq_none (by omega)]
    exact hd

theorem pixelGet_le_255 {img : List (List ℕ)} (h : ∀ row ∈ img, ∀ v ∈ row, v ≤ 255)
    (r c : ℕ) : pixelGet img r c ≤ 255 := by
  unfold pixelGet
  refine getD_le_bound (le_refl 255) ?_
  by_cases hr : r < img.length
  · rw [List.getD_eq_getElem img [] hr]
    exact h _ (List.getElem_mem hr)
  · rw [List.getD_eq_getElem?_getD, List.getElem?_eq_none (by omega)]
    exact fun v hv => absurd hv (List.not_mem_nil v)

theorem pilRotate_ok {n : ℕ} {img : List (List ℕ)} (h : ImgOK n img) (angle : ℚ) :
    ImgOK n (pilRotate img angle) := by
  obtain ⟨hlen, hrow⟩ := h
  have hb : ∀ row ∈ img, ∀ v ∈ row, v ≤ 255 := fun row hr => (hrow row hr).2
  constructor
  · simp [pilRotate, hlen]
  · intro row hr
    simp only [pilRotate, List.mem_map, List.mem_range] at hr
    obtain ⟨y, hy, rfl⟩ := hr
    constructor
    · simp [hlen]
    · intro v hv
      simp only [List.mem_map, List.mem_range] at hv
      obtain ⟨x, hx, rfl⟩ := hv
      split
      · exact pixelGet_le_255 hb _ _
      · exact le_refl 255

theorem interp_le_255 {p00 p01 p10 p11 fx fy : ℚ}
    (h00 : 0 ≤ p00 ∧ p00 ≤ 255) (h01 : 0 ≤ p01 ∧ p01 ≤ 255)
    (h10 : 0 ≤ p10 ∧ p10 ≤ 255) (h11 : 0 ≤ p11 ∧ p11 ≤ 255)
    (hfx : 0 ≤ fx ∧ fx ≤ 1) (hfy : 0 ≤ fy ∧ fy ≤ 1) :
    (max 0 ⌊(1 - fy) * ((1 - fx) * p00 + fx * p01) +
        fy * ((1 - fx) * p10 + fx * p11) + 1/2⌋).toNat ≤ 255 := by
  have i1 : (1 - fx) * p00 + fx * p01 ≤ 255 := by nlinarith
  have i2 : (1 - fx) * p10 + fx * p11 ≤ 255 := by nlinarith
  have hv : (1 - fy) * ((1 - fx) * p00 + fx * p01) +
      fy * ((1 - fx) * p10 + fx * p11) ≤ 255 := by nlinarith
  have hfl : ⌊(1 - fy) * ((1 - fx) * p00 + fx * p01) +
      fy * ((1 - fx) * p10 + fx * p11) + 1/2⌋ < 256 := by
    rw [Int.floor_lt]
    push_cast
    linarith
  omega

theorem pilResize_ok {img : List (List ℕ)} (h : ∀ row ∈ img, ∀ v ∈ row, v ≤ 255)
    (m : ℕ) : ImgOK m (pilResize img m) := by
  constructor
  · simp [pilResize]
  · intro row hr
    simp only [pilResize, List.mem_map, List.mem_range] at hr
    obtain ⟨y, hy, rfl⟩ := hr
    constructor
    · simp
    · intro v hv
      simp only [List.mem_map, List.mem_range] at hv
      obtain ⟨x, hx, rfl⟩ := hv
      refine interp_le_255 ?_ ?_ ?_ ?_ ?_ ?_
      all_goals first
      | exact ⟨by positivity, by exact_mod_cast pixelGet_le_255 h _ _⟩
      | refine ⟨by simp [Int.floor_le], ?_⟩
        have hlt := Int.lt_floor_add_one (((x : ℚ) + 1/2) * (img.length : ℚ) / (m : ℚ) - 1/2)
        have hlt2 := Int.lt_floor_add_one (((y : ℚ) + 1/2) * (img.length : ℚ) / (m : ℚ) - 1/2)
        push_cast at hlt hlt2 ⊢
        linarith

theorem pilCrop_ok {n newSize left : ℕ} {img : List (List ℕ)} (h : ImgOK newSize img)
    (hle : left + n ≤ newSize) :
    ImgOK n (pilCrop img left left (left + n) (left + n)) := by
  obtain ⟨hlen, hrow⟩ := h
  constructor
  · simp only [pilCrop, List.length_map, List.length_take, List.length_drop, hlen]
    omega
  · intro row hr
    simp only [pilCrop, List.mem_map] at hr
    obtain ⟨row0, hr0, rfl⟩ := hr
    have hrow0 : row0 ∈ img := List.drop_subset _ _ (List.take_subset _ _ hr0)
    obtain ⟨hl0, hv0⟩ := hrow row0 hrow0
    constructor
    · simp only [List.length_take, List.length_drop, hl0]
      omega
    · intro v hv
      exact hv0 v (List.drop_subset _ _ (List.take_subset _ _ hv))

theorem pilPasteCenter_ok {img : List (List ℕ)} (h : ∀ row ∈ img, ∀ v ∈ row, v ≤ 255)
    (orig m off : ℕ) : ImgOK orig (pilPasteCenter img orig m off) := by
  constructor
  · simp [pilPasteCenter]
  · intro row hr
    simp only [pilPasteCenter, List.mem_map, List.mem_range] at hr
    obtain ⟨y, hy, rfl⟩ := hr
    constructor
    · simp
    · intro v hv
      simp only [List.mem_map, List.mem_range] at hv
      obtain ⟨x, hx, rfl⟩ := hv
      split
      · exact pixelGet_le_255 h _ _
      · exact le_refl 255

theorem augGeom_ok {n : ℕ} {img : List (List ℕ)} (h : ImgOK n img) (angle sc : ℚ) :
    ImgOK n (augGeom img angle sc) := by
  have hrot := pilRotate_ok h angle
  have hrotle : ∀ row ∈ pilRotate img angle, ∀ v ∈ row, v ≤ 255 :=
    fun row hr => (hrot.2 row hr).2
  simp only [augGeom]
  rw [h.1]
  set M := (⌊((pilRotate img angle).length : ℚ) * sc⌋).toNat with hM
  have hres := pilResize_ok hrotle M
  have hresle : ∀ row ∈ pilResize (pilRotate img angle) M, ∀ v ∈ row, v ≤ 255 :=
    fun row hr => (hres.2 row hr).2
  split
  · exact pilCrop_ok hres (by omega)
  · split
    · exact pilPasteCenter_ok hresle n M ((n - M) / 2)
    · have hMn : M = n := by omega
      rw [← hMn]
      exact hres

theorem image_to_tensor_inj {a b : List (List ℕ)}
    (h : image_to_tensor a = image_to_tensor b) : a = b := by
  rw [image_to_tensor_eq, image_to_tensor_eq] at h
  simp only [List.cons.injEq, and_true] at h
  have hpix : Function.Injective fun p : ℕ => 1 - (p : ℚ) / 255 := by
    intro p q hpq
    simp only at hpq
    have : (p : ℚ) = q := by linarith
    exact_mod_cast this
  exact List.map_injective_iff.mpr (List.map_injective_iff.mpr hpix) h

theorem noise_diff {n : ℕ} {img : List (List ℕ)} (h : ImgOK n img) (hn : 0 < n)
    {s1 s2 : ℕ} (h1 : s1 % 9 = 0) (h2 : s2 % 9 = 8) :
    (noiseImage img s1).1 ≠ (noiseImage img s2).1 := by
  obtain ⟨hlen, hrow⟩ := h
  cases img with
  | nil => rw [List.length_nil] at hlen; omega
  | cons row rest =>
    obtain ⟨hrl, hrv⟩ := hrow row (List.mem_cons_self row rest)
    cases row with
    | nil => rw [List.length_nil] at hrl; omega
    | cons p ps =>
      have hp : p ≤ 255 := hrv p (List.mem_cons_self p ps)
      intro heq
      simp only [noiseImage, noisePixels, npNormalInt, List.cons.injEq] at heq
      obtain ⟨⟨hc, _⟩, _⟩ := heq
      rw [h1, h2] at hc
      omega

theorem foldlM_skip {α β ε : Type _} (f : β → α → Except ε β) (keep : α → Bool)
    (hskip : ∀ b a, keep a = false → f b a = Except.ok b) :
    ∀ (l : List α) (init : β), l.foldlM f init = (l.filter keep).foldlM f init := by
  intro l
  induction l with
  | nil => intro init; rfl
  | cons a t ih =>
    intro init
    by_cases hk : keep a
    · rw [List.filter_cons_of_pos hk, List.foldlM_cons, List.foldlM_cons]
      cases hfa : f init a with
      | error e => simp [Bind.bind, Except.bind]
      | ok b =>
        simp only [Bind.bind, Except.bind]
        exact ih b
    · rw [List.filter_cons_of_neg (by simpa using hk), List.foldlM_cons,
        hskip init a (by simpa using hk)]
      simp only [Bind.bind, Except.bind]
      exact ih init

theorem foldlM_strokes_eq (scale : ℚ) (padding lineWidth : ℕ) :
    ∀ (strokes : List Stroke) (init : List (List ℕ)),
      (∀ s ∈ strokes, ∀ pt ∈ s.points?.getD [], pt.x?.isSome ∧ pt.y?.isSome) →
      strokes.foldlM (strokeStep scale padding lineWidth) init =
        Except.ok (strokes.foldl
          (fun img s =>
            let pts := s.points?.getD []
            if pts.length < 2 then img
            else drawSegments img
              (pts.map fun pt =>
                (pt.x?.getD 0 * scale + (padding : ℚ), pt.y?.getD 0 * scale + (padding : ℚ)))
              lineWidth)
          init) := by
  intro strokes
  induction strokes with
  | nil => intro init _; rfl
  | cons s t ih =>
    intro init hwf
    rw [List.foldlM_cons, List.foldl_cons]
    have hs := hwf s (List.mem_cons_self s t)
    have ht := fun s2 hs2 => hwf s2 (List.mem_cons_of_mem s hs2)
    by_cases hlen : (s.points?.getD []).length < 2
    · rw [show strokeStep scale padding lineWidth init s = Except.ok init from by
        unfold strokeStep; rw [if_pos hlen]]
      simp only [Bind.bind, Except.bind, hlen, if_pos]
      exact ih init ht
    · rw [show strokeStep scale padding lineWidth init s =
          Except.ok (drawSegments init
            ((s.points?.getD []).map fun pt =>
              (pt.x?.getD 0 * scale + (padding : ℚ), pt.y?.getD 0 * scale + (padding : ℚ)))
            lineWidth) from by
        unfold strokeStep
        rw [if_neg hlen, coordsOfPoints_eq _ _ _ _ hs]
        rfl]
      simp only [Bind.bind, Except.bind, hlen, if_neg, if_false]
      exact ih _ ht

end Doodle

/-! ## Claim theorems for the preprocessing pipeline -/

open Doodle

/-- C1 counterexample: the claim asserts that every input with non-positive
canvas dimensions makes `strokes_to_image` raise `InvalidInputError`; on the
concrete drawing with canvas width 0 (non-positive) and height 400 the code
raises nothing and returns a complete image. -/
theorem C1_counterexample :
    strokes_to_image ⟨some [], some ⟨some 0, some 400⟩⟩ 64 2 4 =
      Except.ok (blankImage 64) := rfl

/-- C1 (amended): `strokes_to_image` performs no input validation and has no
`InvalidInputError`.  When `max(canvas_width, canvas_height) = 0` it raises
`ZeroDivisionError` at the scale computation, before any stroke is
processed; for every other canvas — including non-positive dimensions — and
every target `size` (including 0) it returns an image as long as every
point carries `x` and `y` entries. -/
theorem C1_no_validation (d : StrokeData) (size lineWidth padding : ℕ) :
    (max (canvasWidth d) (canvasHeight d) = 0 →
      strokes_to_image d size lineWidth padding = Except.error PyError.zeroDivisionError) ∧
    (max (canvasWidth d) (canvasHeight d) ≠ 0 → WFPoints d →
      ∃ img, strokes_to_image d size lineWidth padding = Except.ok img) := by
  constructor
  · intro hmax
    unfold strokes_to_image
    rw [if_pos hmax]
  · intro hmax hwf
    exact strokes_to_image_isOk hmax hwf

theorem C1_witness :
    (max (canvasWidth ⟨some [], some ⟨some 0, some 0⟩⟩)
        (canvasHeight ⟨some [], some ⟨some 0, some 0⟩⟩) = 0 ∧
      strokes_to_image ⟨some [], some ⟨some 0, some 0⟩⟩ 64 2 4 =
        Except.error PyError.zeroDivisionError) ∧
    (max (canvasWidth ⟨some [], some ⟨some (-400), some (-400)⟩⟩)
        (canvasHeight ⟨some [], some ⟨some (-400), some (-400)⟩⟩) ≠ 0 ∧
      WFPoints ⟨some [], some ⟨some (-400), some (-400)⟩⟩ ∧
      ∃ img, strokes_to_image ⟨some [], some ⟨some (-400), some (-400)⟩⟩ 64 2 4 =
        Except.ok img) :=
  ⟨⟨by decide, (C1_no_validation ⟨some [], some ⟨some 0, some 0⟩⟩ 64 2 4).1 (by decide)⟩,
   ⟨by decide, by simp [WFPoints],
    (C1_no_validation ⟨some [], some ⟨some (-400), some (-400)⟩⟩ 64 2 4).2
      (by decide) (by simp [WFPoints])⟩⟩

/-- C4: `image_to_tensor` computes `1 - pixel/255` for every pixel and adds
one leading channel dimension; consequently an all-255 image maps to an
all-zero tensor and an all-0 image maps to an all-one tensor. -/
theorem C4_normalization_polarity :
    (∀ img : List (List ℕ),
      image_to_tensor img = [img.map fun row => row.map fun p : ℕ => 1 - (p : ℚ) / 255]) ∧
    (∀ n : ℕ, image_to_tensor (List.replicate n (List.replicate n 255)) =
      [List.replicate n (List.replicate n (0 : ℚ))]) ∧
    (∀ n : ℕ, image_to_tensor (List.replicate n (List.replicate n 0)) =
      [List.replicate n (List.replicate n (1 : ℚ))]) := by
  refine ⟨image_to_tensor_eq, ?_, ?_⟩
  · intro n
    rw [image_to_tensor_eq]
    simp [List.map_replicate]
  · intro n
    rw [image_to_tensor_eq]
    simp [List.map_replicate]

/-- C5: strokes with fewer than 2 points are skipped entirely — removing
them from a drawing never changes the rasterized output — and a drawing
with an empty stroke list and positive canvas dimensions rasterizes to the
all-white image for every canvas size. -/
theorem C5_short_strokes_skipped :
    (∀ (d : StrokeData) (size lineWidth padding : ℕ),
      strokes_to_image d size lineWidth padding =
        strokes_to_image (dropShortStrokes d) size lineWidth padding) ∧
    (∀ (cw ch : ℚ) (size lineWidth padding : ℕ), 0 < cw → 0 < ch →
      strokes_to_image ⟨some [], some ⟨some cw, some ch⟩⟩ size lineWidth padding =
        Except.ok (blankImage size)) := by
  constructor
  · intro d size lineWidth padding
    unfold strokes_to_image
    have hcw : canvasWidth (dropShortStrokes d) = canvasWidth d := rfl
    have hch : canvasHeight (dropShortStrokes d) = canvasHeight d := rfl
    rw [hcw, hch]
    by_cases hmax : max (canvasWidth d) (canvasHeight d) = 0
    · rw [if_pos hmax, if_pos hmax]
    · rw [if_neg hmax, if_neg hmax]
      have hstrokes : (dropShortStrokes d).strokes?.getD [] =
          (d.strokes?.getD []).filter fun s => 2 ≤ (s.points?.getD []).length := rfl
      rw [hstrokes]
      exact foldlM_skip _ _
        (fun b s hs => by
          unfold strokeStep
          rw [if_pos (by simpa using hs)]) _ _
  · intro cw ch size lineWidth padding hcw _hch
    have hmax : max (canvasWidth ⟨some [], some ⟨some cw, some ch⟩⟩)
        (canvasHeight ⟨some [], some ⟨some cw, some ch⟩⟩) ≠ 0 := by
      have : (0 : ℚ) < max cw ch := lt_max_of_lt_left hcw
      simpa [canvasWidth, canvasHeight] using ne_of_gt this
    unfold strokes_to_image
    rw [if_neg hmax]
    rfl

theorem C5_witness :
    strokes_to_image
        ⟨some [⟨some [⟨some 10, some 20⟩]⟩, ⟨some []⟩, ⟨none⟩], some ⟨some 400, some 400⟩⟩ 64 2 4 =
      strokes_to_image
        (dropShortStrokes
          ⟨some [⟨some [⟨some 10, some 20⟩]⟩, ⟨some []⟩, ⟨none⟩], some ⟨some 400, some 400⟩⟩) 64 2 4 ∧
    ((0 : ℚ) < 400 ∧ strokes_to_image ⟨some [], some ⟨some 400, some 400⟩⟩ 64 2 4 =
      Except.ok (blankImage 64)) :=
  ⟨C5_short_strokes_skipped.1 _ 64 2 4,
   by norm_num, C5_short_strokes_skipped.2 400 400 64 2 4 (by norm_num) (by norm_num)⟩

/-- C6: for a fixed non-`none` seed, the output of `augment_image` does not
depend on the incoming global random state at all, so two applications to
the same image with the same seed yield bit-identical output. -/
theorem C6_seeded_determinism (img : List (List ℕ)) (s : ℕ) (st1 st2 : ℕ) :
    (augment_image img (some s) st1).1 = (augment_image img (some s) st2).1 := rfl

/-- C10: `batch_preprocess` applied to an empty list of drawings raises
`ValueError` (from `np.stack` of an empty sequence) instead of returning an
empty batch, for every size, augmentation flag and random state. -/
theorem C10_empty_batch_raises (size : ℕ) (augment : Bool) (st : ℕ) :
    batch_preprocess [] size augment st = (Except.error PyError.valueError, st) := rfl

/-- C2: for a drawing with positive canvas dimensions whose points all have
`x`/`y` entries, `strokes_to_image` produces exactly the image obtained by
mapping every point of every drawn stroke with the single uniform scale
`(size - 2*padding) / max(canvas_width, canvas_height)` on *both* axes to
`(x * scale + padding, y * scale + padding)` — an unclamped affine map —
and drawing the connecting segments. -/
theorem C2_uniform_point_mapping (d : StrokeData) (size lineWidth padding : ℕ)
    (hcw : 0 < canvasWidth d) (hch : 0 < canvasHeight d) (hwf : WFPoints d) :
    strokes_to_image d size lineWidth padding =
      Except.ok ((d.strokes?.getD []).foldl
        (fun img s =>
          let pts := s.points?.getD []
          if pts.length < 2 then img
          else drawSegments img
            (pts.map fun pt =>
              (pt.x?.getD 0 *
                  (((size : ℚ) - 2 * (padding : ℚ)) / max (canvasWidth d) (canvasHeight d)) +
                (padding : ℚ),
               pt.y?.getD 0 *
                  (((size : ℚ) - 2 * (padding : ℚ)) / max (canvasWidth d) (canvasHeight d)) +
                (padding : ℚ)))
            lineWidth)
        (blankImage size)) := by
  have hmax : max (canvasWidth d) (canvasHeight d) ≠ 0 :=
    ne_of_gt (lt_max_of_lt_left hcw)
  unfold strokes_to_image
  rw [if_neg hmax]
  exact foldlM_strokes_eq _ padding lineWidth _ _ hwf

theorem C2_witness :
    (0 : ℚ) < canvasWidth ⟨some [⟨some [⟨some 0, some 0⟩, ⟨some 400, some 300⟩]⟩],
        some ⟨some 400, some 300⟩⟩ ∧
    WFPoints ⟨some [⟨some [⟨some 0, some 0⟩, ⟨some 400, some 300⟩]⟩],
        some ⟨some 400, some 300⟩⟩ ∧
    strokes_to_image ⟨some [⟨some [⟨some 0, some 0⟩, ⟨some 400, some 300⟩]⟩],
        some ⟨some 400, some 300⟩⟩ 64 2 4 =
      Except.ok ((([⟨some [⟨some 0, some 0⟩, ⟨some 400, some 300⟩]⟩] :
            List Stroke)).foldl
        (fun img s =>
          let pts := s.points?.getD []
          if pts.length < 2 then img
          else drawSegments img
            (pts.map fun pt =>
              (pt.x?.getD 0 * (((64 : ℚ) - 2 * (4 : ℚ)) / max 400 300) + (4 : ℚ),
               pt.y?.getD 0 * (((64 : ℚ) - 2 * (4 : ℚ)) / max 400 300) + (4 : ℚ)))
            2)
        (blankImage 64)) := by
  refine ⟨by decide, by simp [WFPoints], ?_⟩
  have h := C2_uniform_point_mapping
    ⟨some [⟨some [⟨some 0, some 0⟩, ⟨some 400, some 300⟩]⟩], some ⟨some 400, some 300⟩⟩
    64 2 4 (by decide) (by decide) (by simp [WFPoints])
  simpa [canvasWidth, canvasHeight] using h

/-- C3: every successful rasterization — in particular of every drawing
with `x`/`y`-complete points and positive canvas dimensions — yields a
`size`×`size` grid of 8-bit values, and `image_to_tensor` of any such grid
is a 1×`size`×`size` tensor with every value in `[0, 1]`. -/
theorem C3_shape_invariant (d : StrokeData) (size lineWidth padding : ℕ)
    (hmax : max (canvasWidth d) (canvasHeight d) ≠ 0) (hwf : WFPoints d) :
    (∃ img, strokes_to_image d size lineWidth padding = Except.ok img ∧
      ImgOK size img ∧ TensorOK size (image_to_tensor img)) ∧
    (∀ img, ImgOK size img → TensorOK size (image_to_tensor img)) := by
  constructor
  · obtain ⟨img, himg⟩ := @strokes_to_image_isOk d size lineWidth padding hmax hwf
    have hok := strokes_to_image_imgOK himg
    exact ⟨img, himg, hok, image_to_tensor_ok hok⟩
  · intro img h
    exact image_to_tensor_ok h

theorem C3_witness :
    (max (canvasWidth ⟨some [⟨some [⟨some 1, some 2⟩, ⟨some 300, some 150⟩]⟩],
          some ⟨some 400, some 400⟩⟩)
        (canvasHeight ⟨some [⟨some [⟨some 1, some 2⟩, ⟨some 300, some 150⟩]⟩],
          some ⟨some 400, some 400⟩⟩) ≠ 0 ∧
      WFPoints ⟨some [⟨some [⟨some 1, some 2⟩, ⟨some 300, some 150⟩]⟩],
        some ⟨some 400, some 400⟩⟩) ∧
    ((∃ img, strokes_to_image ⟨some [⟨some [⟨some 1, some 2⟩, ⟨some 300, some 150⟩]⟩],
          some ⟨some 400, some 400⟩⟩ 8 2 4 = Except.ok img ∧
        ImgOK 8 img ∧ TensorOK 8 (image_to_tensor img)) ∧
      (∀ img, ImgOK 8 img → TensorOK 8 (image_to_tensor img))) :=
  ⟨⟨by decide, by simp [WFPoints]⟩,
   C3_shape_invariant ⟨some [⟨some [⟨some 1, some 2⟩, ⟨some 300, some 150⟩]⟩],
      some ⟨some 400, some 400⟩⟩ 8 2 4 (by decide) (by simp [WFPoints])⟩

/-- C9: `batch_preprocess` with `augment = True` passes no seed to
`augment_image`, so its result depends on the shared global random state:
on the same single-drawing input list, the calls starting from global
states 17408 and 6144 draw the same rotation angle and scale factor but
different per-pixel noise, and return different tensor batches. -/
theorem C9_global_state_dependence :
    (batch_preprocess [⟨some [], none⟩] 4 true 17408).1 ≠
      (batch_preprocess [⟨some [], none⟩] 4 true 6144).1 := by
  intro heq
  have e1 : (batch_preprocess [⟨some [], none⟩] 4 true 17408).1 =
      Except.ok [image_to_tensor (noiseImage
        (augGeom (blankImage 4) (npUniform (-15) 15 17408).1
          (npUniform (9/10) (11/10) (lcgNext 17408)).1)
        (lcgNext (lcgNext 17408))).1] := rfl
  have e2 : (batch_preprocess [⟨some [], none⟩] 4 true 6144).1 =
      Except.ok [image_to_tensor (noiseImage
        (augGeom (blankImage 4) (npUniform (-15) 15 6144).1
          (npUniform (9/10) (11/10) (lcgNext 6144)).1)
        (lcgNext (lcgNext 6144))).1] := rfl
  have hangle : (npUniform (-15) 15 6144).1 = (npUniform (-15) 15 17408).1 := by
    norm_num [npUniform, unitFrac]
  have hsc : (npUniform (9/10) (11/10) (lcgNext 6144)).1 =
      (npUniform (9/10) (11/10) (lcgNext 17408)).1 := by
    norm_num [npUniform, unitFrac, lcgNext]
  rw [e1, e2, hangle, hsc] at heq
  simp only [Except.ok.injEq, List.cons.injEq, and_true] at heq
  have hN := image_to_tensor_inj heq
  exact noise_diff (augGeom_ok (blankImage_ok 4) _ _) (by norm_num)
    (by decide) (by decide) hN

/-! ## Claim theorems for the classifier -/

open DoodleNet

/-- C8: loading a weight set whose parameter structure does not match the
declared parameter set of `DoodleNet` makes `create_model` raise at load
time and return no model at all — the mismatched weights are neither
silently ignored nor partially applied — while a structurally matching
weight set fully overwrites the parameters. -/
theorem C8_weight_mismatch (numClasses : ℕ) (sd : List (String × List ℕ))
    (h : shapesMatch (doodleNetStateShapes numClasses) sd = false) :
    create_model numClasses (some sd) = Except.error Doodle.PyError.runtimeError ∧
    ∀ sd2, shapesMatch (doodleNetStateShapes numClasses) sd2 = true →
      create_model numClasses (some sd2) = Except.ok sd2 := by
  constructor
  · simp [create_model, h]
  · intro sd2 h2
    simp [create_model, h2]

theorem C8_witness :
    shapesMatch (doodleNetStateShapes 5) [] = false ∧
    create_model 5 (some []) = Except.error Doodle.PyError.runtimeError :=
  ⟨by decide, (C8_weight_mismatch 5 [] (by decide)).1⟩

namespace DoodleNet

theorem expPos_pos {z : ℚ} (hz : 0 ≤ z) : 0 < expPos z := by
  unfold expPos
  linarith [pow_nonneg hz 2, pow_nonneg hz 3, pow_nonneg hz 4,
    pow_nonneg hz 5, pow_nonneg hz 6, pow_nonneg hz 7, hz]

theorem expApprox_pos (z : ℚ) : 0 < expApprox z := by
  by_cases hz : 0 ≤ z
  · rw [expApprox, if_pos hz]
    exact expPos_pos hz
  · rw [expApprox, if_neg hz]
    exact div_pos one_pos (expPos_pos (by linarith [not_le.mp hz]))

theorem sum_expApprox_pos (l : List ℚ) (hne : l ≠ []) : 0 < (l.map expApprox).sum := by
  cases l with
  | nil => exact absurd rfl hne
  | cons a t =>
    simp only [List.map_cons, List.sum_cons]
    have h1 := expApprox_pos a
    have h2 : 0 ≤ (t.map expApprox).sum := by
      refine List.sum_nonneg ?_
      intro q hq
      obtain ⟨z, _, rfl⟩ := List.mem_map.mp hq
      exact le_of_lt (expApprox_pos z)
    linarith

theorem softmaxQ_sum (l : List ℚ) (hne : l ≠ []) : (softmaxQ l).sum = 1 := by
  have hs := sum_expApprox_pos l hne
  simp only [softmaxQ, div_eq_mul_inv]
  rw [List.sum_map_mul_right]
  exact mul_inv_cancel₀ (ne_of_gt hs)

theorem softmaxQ_bounds (l : List ℚ) (hne : l ≠ []) :
    ∀ q ∈ softmaxQ l, 0 ≤ q ∧ q ≤ 1 := by
  intro q hq
  simp only [softmaxQ, List.mem_map] at hq
  obtain ⟨z, hz, rfl⟩ := hq
  have hs := sum_expApprox_pos l hne
  constructor
  · exact le_of_lt (div_pos (expApprox_pos z) hs)
  · rw [div_le_one hs]
    refine List.single_le_sum ?_ _ (List.mem_map_of_mem expApprox hz)
    intro y hy
    obtain ⟨u, _, rfl⟩ := List.mem_map.mp hy
    exact le_of_lt (expApprox_pos u)

theorem foldl_max_le {hi : ℚ} :
    ∀ (l : List ℚ) (init : ℚ), init ≤ hi → (∀ q ∈ l, q ≤ hi) →
      l.foldl max init ≤ hi := by
  intro l
  induction l with
  | nil =>
    intro init h _
    simpa using h
  | cons a t ih =>
    intro init h hq
    rw [List.foldl_cons]
    exact ih (max init a) (max_le h (hq a (List.mem_cons_self a t)))
      fun q hq2 => hq q (List.mem_cons_of_mem a hq2)

theorem le_foldl_max {lo : ℚ} :
    ∀ (l : List ℚ) (init : ℚ), lo ≤ init → lo ≤ l.foldl max init := by
  intro l
  induction l with
  | nil =>
    intro init h
    simpa using h
  | cons a t ih =>
    intro init h
    rw [List.foldl_cons]
    exact ih (max init a) (le_trans h (le_max_left init a))

theorem maxOfList_bounds {l : List ℚ} {lo hi : ℚ} (hne : l ≠ [])
    (h : ∀ q ∈ l, lo ≤ q ∧ q ≤ hi) : lo ≤ maxOfList l ∧ maxOfList l ≤ hi := by
  cases l with
  | nil => exact absurd rfl hne
  | cons a t =>
    have ha := h a (List.mem_cons_self a t)
    unfold maxOfList
    rw [List.headD_cons]
    constructor
    · exact le_foldl_max _ _ ha.1
    · exact foldl_max_le _ _ ha.2 fun q hq => (h q hq).2

theorem wfBN_zero (c : ℕ) : WFBN c (zeroBN c) := by
  simp [WFBN, zeroBN]

theorem wfConvW_zero (o i k : ℕ) : WFConvW o i k (zeroConvW o i k) := by
  simp [WFConvW, zeroConvW, zeroKernel, List.mem_replicate]

theorem wfDS_zero (i o : ℕ) : WFDS i o (zeroDS i o) := by
  refine ⟨⟨?_, ?_⟩, wfConvW_zero o i 1, wfBN_zero i, wfBN_zero o⟩
  · simp [zeroDS]
  · intro wc hwc
    simp only [zeroDS] at hwc
    rw [List.eq_of_mem_replicate hwc]
    simp [zeroKernel, List.mem_replicate]

theorem zeroDoodleParams_wf : WFParams 5 zeroDoodleParams := by
  refine ⟨wfConvW_zero 32 1 3, wfBN_zero 32, wfDS_zero 32 64, wfDS_zero 64 128,
    wfDS_zero 128 128, wfDS_zero 128 256, wfDS_zero 256 256, wfDS_zero 256 512,
    ?_, ?_, ?_⟩
  · exact List.length_replicate 5 _
  · intro r hr
    simp only [zeroDoodleParams] at hr
    rw [List.eq_of_mem_replicate hr]
    exact List.length_replicate 512 _
  · exact List.length_replicate 5 _

theorem zeroBatch_shape : ∀ x ∈ [zeroInput64], TShape 1 64 64 x := by
  intro x hx
  rw [List.mem_singleton] at hx
  subst hx
  simp [TShape, zeroInput64, List.mem_replicate]

end DoodleNet

/-- C7: for a classifier with `num_classes = 5` and any batch of N valid
1×64×64 tensors, `forward` returns raw logits of shape (N, 5), and
`predict` applies softmax over the class dimension followed by per-example
argmax, returning confidences that are the maxima of per-example
probability distributions: every softmax value lies in `[0, 1]`, each
probabilities of each example sum to 1, and every returned confidence lies in
`[0, 1]`. -/
theorem C7_classifier_contract (p : DoodleNetParams) (hwf : WFParams 5 p)
    (batch : List (List (List (List ℚ)))) (hb : ∀ x ∈ batch, TShape 1 64 64 x) :
    (forward p batch).length = batch.length ∧
    (∀ l ∈ forward p batch, l.length = 5) ∧
    (predict p batch).1.length = batch.length ∧
    (predict p batch).2.length = batch.length ∧
    (predict p batch).2 = (forward p batch).map (fun l => maxOfList (softmaxQ l)) ∧
    (∀ l ∈ forward p batch, (softmaxQ l).sum = 1 ∧ ∀ q ∈ softmaxQ l, 0 ≤ q ∧ q ≤ 1) ∧
    (∀ conf ∈ (predict p batch).2, 0 ≤ conf ∧ conf ≤ 1) := by
  obtain ⟨hc1, hbn0, hb1, hb2, hb3, hb4, hb5, hb6, hclw, hclr, hclb⟩ := hwf
  have hlen : ∀ l ∈ forward p batch, l.length = 5 := by
    intro l hl
    obtain ⟨x, hx, rfl⟩ := List.mem_map.mp hl
    simp [forwardSingle, linearLayer, List.length_zip, hclw, hclb]
  have hne5 : ∀ l ∈ forward p batch, l ≠ [] := by
    intro l hl h0
    have := hlen l hl
    rw [h0] at this
    simp at this
  refine ⟨by simp [forward], hlen, by simp [predict, forward],
    by simp [predict, forward], ?_, ?_, ?_⟩
  · simp [predict, List.map_map]
  · intro l hl
    exact ⟨softmaxQ_sum l (hne5 l hl), softmaxQ_bounds l (hne5 l hl)⟩
  · intro conf hconf
    simp only [predict, List.map_map, List.mem_map, Function.comp] at hconf
    obtain ⟨l, hl, rfl⟩ := hconf
    have hlne : l ≠ [] := hne5 l hl
    have hsne : softmaxQ l ≠ [] := by
      intro h0
      simp only [softmaxQ] at h0
      exact hlne (List.map_eq_nil_iff.mp h0)
    exact maxOfList_bounds hsne (softmaxQ_bounds l hlne)

theorem C7_witness :
    DoodleNet.WFParams 5 DoodleNet.zeroDoodleParams ∧
    (∀ x ∈ [DoodleNet.zeroInput64], DoodleNet.TShape 1 64 64 x) ∧
    ((forward DoodleNet.zeroDoodleParams [DoodleNet.zeroInput64]).length =
        [DoodleNet.zeroInput64].length ∧
      (∀ l ∈ forward DoodleNet.zeroDoodleParams [DoodleNet.zeroInput64], l.length = 5) ∧
      (predict DoodleNet.zeroDoodleParams [DoodleNet.zeroInput64]).1.length =
        [DoodleNet.zeroInput64].length ∧
      (predict DoodleNet.zeroDoodleParams [DoodleNet.zeroInput64]).2.length =
        [DoodleNet.zeroInput64].length ∧
      (predict DoodleNet.zeroDoodleParams [DoodleNet.zeroInput64]).2 =
        (forward DoodleNet.zeroDoodleParams [DoodleNet.zeroInput64]).map
          (fun l => maxOfList (softmaxQ l)) ∧
      (∀ l ∈ forward DoodleNet.zeroDoodleParams [DoodleNet.zeroInput64],
        (softmaxQ l).sum = 1 ∧ ∀ q ∈ softmaxQ l, 0 ≤ q ∧ q ≤ 1) ∧
      (∀ conf ∈ (predict DoodleNet.zeroDoodleParams [DoodleNet.zeroInput64]).2,
        0 ≤ conf ∧ conf ≤ 1)) :=
  ⟨DoodleNet.zeroDoodleParams_wf, DoodleNet.zeroBatch_shape,
   C7_classifier_contract DoodleNet.zeroDoodleParams DoodleNet.zeroDoodleParams_wf
     [DoodleNet.zeroInput64] DoodleNet.zeroBatch_shape⟩
